import Mathlib

set_option linter.unusedVariables false

namespace Crontabcheck

/-! Shallow embedding of crontabcheck (src/parser.rs and src/main.rs), a
crontab syntax checker built on the nom 2.x parser-combinator macros.
Byte slices are modelled as `List Nat`; every nom combinator the source
uses is given a definition mirroring the library implementation it
expands to.  Rust panics are modelled by `Option`-valued functions
returning `none`. -/

/-- Error taxonomy of the checker (enum CrontabSyntaxError, parser.rs
lines 12-20).  The Rust field names value/min/max of ValueOutOfBounds
are value/lo/hi here. -/
inductive CrontabSyntaxError where
  | InvalidEnumField
  | ValueOutOfBounds (value lo hi : Int)
  | InvalidNumericValue
  | InvalidPeriodField
  | InvalidFieldSeparator
  | InvalidUsername
  | InvalidCommandLine (reason : String)
deriving DecidableEq

/-- nom Needed (how much more input a streaming parse would need). -/
inductive Needed where
  | Unknown
  | Size (n : Nat)
deriving DecidableEq

/-- nom ErrorKind, restricted to the kinds this program can produce. -/
inductive NomErrorKind where
  | Tag
  | Digit
  | AlphaNumeric
  | Space
  | Alt
  | SeparatedNonEmptyList
  | Custom (e : CrontabSyntaxError)
deriving DecidableEq

/-- nom Err with byte-slice positions; Node and NodePosition carry a
vector of nested causes. -/
inductive NomErr where
  | Code (kind : NomErrorKind)
  | Node (kind : NomErrorKind) (next : List NomErr)
  | Position (kind : NomErrorKind) (pos : List Nat)
  | NodePosition (kind : NomErrorKind) (pos : List Nat) (next : List NomErr)

/-- nom IResult: success with remainder, failure with a diagnostic, or a
request for more input. -/
inductive IResult (α : Type) where
  | Done (remaining : List Nat) (output : α)
  | Error (err : NomErr)
  | Incomplete (needed : Needed)

/-- UTF-8 encoding of one character (used to turn the Rust string
literals of the source into byte lists). -/
def encodeChar (c : Char) : List Nat :=
  let n := c.toNat
  if n < 128 then [n]
  else if n < 2048 then [192 + n / 64, 128 + n % 64]
  else if n < 65536 then [224 + n / 4096, 128 + (n / 64) % 64, 128 + n % 64]
  else [240 + n / 262144, 128 + (n / 4096) % 64, 128 + (n / 64) % 64, 128 + n % 64]

/-- Byte list of a Rust string literal. -/
def bs (s : String) : List Nat := s.data.flatMap encodeChar

/-- nom is_digit. -/
def isDigitByte (b : Nat) : Bool := 48 ≤ b && b ≤ 57

/-- nom is_space (space or tab only). -/
def isSpaceByte (b : Nat) : Bool := b == 32 || b == 9

/-- nom is_alphabetic (ASCII letters). -/
def isAlphabeticByte (b : Nat) : Bool := (65 ≤ b && b ≤ 90) || (97 ≤ b && b ≤ 122)

/-- nom is_alphanumeric. -/
def isAlphanumericByte (b : Nat) : Bool := isAlphabeticByte b || isDigitByte b

/-- Shared shape of the nom 2.x character-class parsers (digit,
alphanumeric, space): scan for the first byte failing the predicate; a
failure at index 0 is an error reported at the whole input, otherwise
the matching prefix is consumed.  When every byte matches (including
the case of empty input) the whole input is consumed. -/
def charClass (p : Nat → Bool) (kind : NomErrorKind) (input : List Nat) :
    IResult (List Nat) :=
  if input.takeWhile p = [] then
    if input = [] then .Done [] []
    else .Error (.Position kind input)
  else .Done (input.dropWhile p) (input.takeWhile p)

/-- nom digit. -/
def digit (input : List Nat) : IResult (List Nat) :=
  charClass isDigitByte .Digit input

/-- nom alphanumeric. -/
def alphanumeric (input : List Nat) : IResult (List Nat) :=
  charClass isAlphanumericByte .AlphaNumeric input

/-- nom space. -/
def space (input : List Nat) : IResult (List Nat) :=
  charClass isSpaceByte .Space input

/-- Result of nom Compare::compare for byte slices. -/
inductive CompareRes where
  | Ok
  | IncompleteRes
  | ErrorRes

/-- nom Compare for byte slices: compare the input against the tag up
to the shorter length; a mismatch is an error, a fully matching but too
short input is incomplete. -/
def compareBytes : List Nat → List Nat → CompareRes
  | _, [] => .Ok
  | [], _ :: _ => .IncompleteRes
  | a :: as', b :: bs' => if a = b then compareBytes as' bs' else .ErrorRes

/-- nom tag. -/
def tag (t : List Nat) (input : List Nat) : IResult (List Nat) :=
  match compareBytes input t with
  | .Ok => .Done (input.drop t.length) (input.take t.length)
  | .IncompleteRes => .Incomplete (.Size t.length)
  | .ErrorRes => .Error (.Position .Tag input)

/-- nom peek: run the parser but do not consume on success. -/
def peek (f : List Nat → IResult α) (input : List Nat) : IResult α :=
  match f input with
  | .Done _ o => .Done input o
  | .Error e => .Error e
  | .Incomplete n => .Incomplete n

/-- One sequencing step of nom do_parse: run the parser, propagate
errors, add the bytes consumed so far to an Incomplete needed-size, and
continue with the remainder and updated consumed count. -/
def dp (input : List Nat) (consumed : Nat) (p : List Nat → IResult α)
    (k : List Nat → Nat → IResult β) : IResult β :=
  match p input with
  | .Error e => .Error e
  | .Incomplete .Unknown => .Incomplete .Unknown
  | .Incomplete (.Size n) => .Incomplete (.Size (consumed + n))
  | .Done i _ => k i (consumed + (input.length - i.length))

/-- nom add_return_error: wrap a failure in a NodePosition carrying the
given kind at the current input, with the original failure nested. -/
def add_return_error (kind : NomErrorKind) (f : List Nat → IResult α)
    (input : List Nat) : IResult α :=
  match f input with
  | .Error e => .Error (.NodePosition kind input [e])
  | .Done i o => .Done i o
  | .Incomplete n => .Incomplete n

/-- nom alt_complete over a list of tag alternatives: Incomplete counts
as failure and the next alternative is tried from the same input; when
all fail the result is an Alt error at the input. -/
def altCompleteTags (tags : List (List Nat)) (input : List Nat) :
    IResult (List Nat) :=
  match tags with
  | [] => .Error (.Position .Alt input)
  | t :: rest =>
    match tag t input with
    | .Done i o => .Done i o
    | _ => altCompleteTags rest input

/-- nom take_while_s: consume the longest prefix satisfying the
predicate; never fails. -/
def take_while (p : Nat → Bool) (input : List Nat) : IResult (List Nat) :=
  .Done (input.dropWhile p) (input.takeWhile p)

/-- Value of an ASCII digit run. -/
def digitsVal (s : List Nat) : Nat := s.foldl (fun acc b => 10 * acc + (b - 48)) 0

/-- Models from_utf8(result).ok().and_then(parse::<i32>) as applied to
the outputs of digit (parser.rs lines 40-42): a digit run is always
valid UTF-8, and Rust i32 parsing of a digit run succeeds exactly when
the run is nonempty and its value fits in an i32 (checked arithmetic
fails at the first overflowing step, which for an unsigned digit run
happens iff the total value exceeds 2147483647). -/
def parse_i32_digits (s : List Nat) : Option Int :=
  if s = [] then none
  else if s.all isDigitByte then
    if digitsVal s ≤ 2147483647 then some (digitsVal s) else none
  else none

/-- parse_within_bounds (parser.rs lines 36-60). -/
def parse_within_bounds (input : List Nat) (lo hi : Int) : IResult Unit :=
  match digit input with
  | .Done remaining result =>
    match parse_i32_digits result with
    | some int =>
      if int < lo ∨ int > hi then
        .Error (.Position (.Custom (.ValueOutOfBounds int lo hi)) input)
      else .Done remaining ()
    | none => .Error (.Position (.Custom .InvalidNumericValue) input)
  | .Error _ => .Error (.Position (.Custom .InvalidNumericValue) input)
  | .Incomplete n => .Incomplete n

/-- minute_value_parse (parser.rs line 63). -/
def minute_value_parse (input : List Nat) : IResult Unit :=
  parse_within_bounds input 0 59

/-- hour_value_parse (parser.rs line 64). -/
def hour_value_parse (input : List Nat) : IResult Unit :=
  parse_within_bounds input 0 24

/-- day_of_month_value_parse (parser.rs line 65). -/
def day_of_month_value_parse (input : List Nat) : IResult Unit :=
  parse_within_bounds input 0 31

/-- Month name tags, in source order (parser.rs lines 71-82). -/
def monthTags : List (List Nat) :=
  [bs "jan", bs "feb", bs "mar", bs "apr", bs "may", bs "jun",
   bs "jul", bs "aug", bs "sep", bs "oct", bs "nov", bs "dec"]

/-- Weekday name tags, in source order (parser.rs lines 96-102). -/
def dayTags : List (List Nat) :=
  [bs "mon", bs "tue", bs "wed", bs "thu", bs "fri", bs "sat", bs "sun"]

/-- month_value_parse (parser.rs lines 67-90); fix_error only converts
the error type parameter and is the identity on the embedded errors. -/
def month_value_parse (input : List Nat) : IResult Unit :=
  match altCompleteTags monthTags input with
  | .Done i _ => .Done i ()
  | .Incomplete inc => .Incomplete inc
  | .Error _ => parse_within_bounds input 1 12

/-- day_of_week_value_parse (parser.rs lines 92-110). -/
def day_of_week_value_parse (input : List Nat) : IResult Unit :=
  match altCompleteTags dayTags input with
  | .Done i _ => .Done i ()
  | .Incomplete inc => .Incomplete inc
  | .Error _ => parse_within_bounds input 0 7

/-- parse_period (parser.rs lines 113-125). -/
def parse_period (value_parse : List Nat → IResult Unit) (input : List Nat) :
    IResult Unit :=
  match tag (bs "*") input with
  | .Done i _ =>
    match tag (bs "/") i with
    | .Done ii _ => add_return_error (.Custom .InvalidPeriodField) value_parse ii
    | _ => .Done i ()
  | _ => .Error (.Position (.Custom .InvalidPeriodField) input)

/-- parse_range_or_value (parser.rs lines 127-140); the separator probe
is fix_error!(tag!("-")), identity on the embedded error. -/
def parse_range_or_value (value_parse : List Nat → IResult Unit)
    (input : List Nat) : IResult Unit :=
  match value_parse input with
  | .Done i o =>
    match tag (bs "-") i with
    | .Error _ => .Done i o
    | .Incomplete inc => .Incomplete inc
    | .Done ii _ => value_parse ii
  | .Error e => .Error e
  | .Incomplete n => .Incomplete n

/-- Loop of nom separated_nonempty_list after the first element: read a
separator then an element, stopping (without failing) as soon as either
does not produce Done or fails to consume.  The fuel argument only
bounds the iteration count; it is initialised with more iterations than
the remaining input has bytes, and every continuing iteration consumes
at least one byte for the separator/element parsers this program uses,
so the fuel never runs out. -/
def sepListLoop (sep : List Nat → IResult (List Nat))
    (elem : List Nat → IResult Unit) :
    Nat → List Nat → List Unit → List Nat × List Unit
  | 0, input, res => (input, res)
  | fuel + 1, input, res =>
    match sep input with
    | .Done i2 _ =>
      if i2.length = input.length then (input, res)
      else
        match elem i2 with
        | .Done i3 o3 =>
          if i3.length = i2.length then (input, res)
          else sepListLoop sep elem fuel i3 (res ++ [o3])
        | _ => (input, res)
    | _ => (input, res)

/-- nom separated_nonempty_list: parse the first element (propagating
its failure), then loop over separator/element pairs. -/
def separated_nonempty_list (sep : List Nat → IResult (List Nat))
    (elem : List Nat → IResult Unit) (input : List Nat) :
    IResult (List Unit) :=
  match elem input with
  | .Error e => .Error e
  | .Incomplete n => .Incomplete n
  | .Done i o =>
    if i.length = input.length then
      .Error (.Position .SeparatedNonEmptyList input)
    else
      let out := sepListLoop sep elem (i.length + 1) i [o]
      .Done out.1 out.2

/-- parse_enum (parser.rs lines 143-150). -/
def parse_enum (value_parse : List Nat → IResult Unit) (input : List Nat) :
    IResult Unit :=
  add_return_error (.Custom .InvalidEnumField)
    (fun inp =>
      dp inp 0
        (separated_nonempty_list (tag (bs ",")) (parse_range_or_value value_parse))
        (fun i _ => .Done i ()))
    input

/-- parse_field (parser.rs lines 153-159). -/
def parse_field (value_parse : List Nat → IResult Unit) (input : List Nat) :
    IResult Unit :=
  match peek (tag (bs "*")) input with
  | .Error _ => parse_enum value_parse input
  | .Done _ _ => parse_period value_parse input
  | .Incomplete e => .Incomplete e

/-- parse_field_separator (parser.rs lines 162-169). -/
def parse_field_separator (input : List Nat) : IResult Unit :=
  match space input with
  | .Done i _ => .Done i ()
  | .Error _ => .Error (.Position (.Custom .InvalidFieldSeparator) input)
  | .Incomplete i => .Incomplete i

/-- is_valid_username (parser.rs lines 171-176). -/
def is_valid_username (name : String) (allowed_usernames : Option (List String)) :
    Bool :=
  match allowed_usernames with
  | none => true
  | some l => l.any (fun el => el == name)

/-- First UTF-8 sequence of a byte list: its scalar value and the
remaining bytes, following RFC 3629 as Rust from_utf8 does (overlong
encodings, surrogates and values above U+10FFFF are rejected).  The
helper bytes b1-b3 default to 256-out-of-range placeholders that fail
every continuation check when the list is too short. -/
def utf8First (l : List Nat) : Option (Nat × List Nat) :=
  let b0 := l.headD 256
  let b1 := (l.drop 1).headD 256
  let b2 := (l.drop 2).headD 256
  let b3 := (l.drop 3).headD 256
  if l = [] then none
  else if b0 < 128 then some (b0, l.drop 1)
  else if b0 < 194 then none
  else if b0 ≤ 223 then
    if 128 ≤ b1 ∧ b1 ≤ 191 then
      some ((b0 - 192) * 64 + (b1 - 128), l.drop 2)
    else none
  else if b0 ≤ 239 then
    if (if b0 = 224 then 160 else 128) ≤ b1 ∧
        b1 ≤ (if b0 = 237 then 159 else 191) ∧ 128 ≤ b2 ∧ b2 ≤ 191 then
      some ((b0 - 224) * 4096 + (b1 - 128) * 64 + (b2 - 128), l.drop 3)
    else none
  else if b0 ≤ 244 then
    if (if b0 = 240 then 144 else 128) ≤ b1 ∧
        b1 ≤ (if b0 = 244 then 143 else 191) ∧ 128 ≤ b2 ∧ b2 ≤ 191 ∧
        128 ≤ b3 ∧ b3 ≤ 191 then
      some ((b0 - 240) * 262144 + (b1 - 128) * 4096 + (b2 - 128) * 64 +
        (b3 - 128), l.drop 4)
    else none
  else none

/-- UTF-8 decoding loop.  The fuel only bounds the number of decoded
sequences; it is initialised with the byte length of the input, and
every sequence consumes at least one byte, so it never runs out. -/
def utf8DecodeAux : Nat → List Nat → Option (List Char)
  | _, [] => some []
  | 0, _ :: _ => none
  | fuel + 1, b0 :: rest =>
    match utf8First (b0 :: rest) with
    | none => none
    | some (code, rest2) =>
      (utf8DecodeAux fuel rest2).map (fun cs => Char.ofNat code :: cs)

/-- UTF-8 validation/decoding as in Rust from_utf8. -/
def utf8Decode (l : List Nat) : Option (List Char) := utf8DecodeAux l.length l

/-- Rust from_utf8 producing a string. -/
def from_utf8 (l : List Nat) : Option String :=
  (utf8Decode l).map (fun cs => String.mk cs)

/-- parse_user (parser.rs lines 179-193). -/
def parse_user (input : List Nat) (allowed_usernames : Option (List String)) :
    IResult Unit :=
  match alphanumeric input with
  | .Done i o =>
    match from_utf8 o with
    | some name =>
      if is_valid_username name allowed_usernames then .Done i ()
      else .Error (.Position (.Custom .InvalidUsername) input)
    | none => .Error (.Position (.Custom .InvalidUsername) input)
  | .Error _ => .Error (.Position (.Custom .InvalidUsername) input)
  | .Incomplete i => .Incomplete i

/-- CrontabParserOptions (parser.rs lines 195-197). -/
structure CrontabParserOptions where
  allowed_usernames : Option (List String)

/-- parse_command_line (parser.rs lines 200-219).  The character scan
only ever fires on a percent byte, so the formatted reason is the
constant text for percent. -/
def parse_command_line (input : List Nat) : IResult Unit :=
  if input.length > 999 then
    .Error (.Position
      (.Custom (.InvalidCommandLine "command line can not exceed 999 characters"))
      input)
  else if input.any (fun c => c == 37) then
    .Error (.Position
      (.Custom (.InvalidCommandLine "special char % should not be used"))
      input)
  else .Done [] ()

/-- parse_comment (parser.rs lines 221-232). -/
def parse_comment (input : List Nat) : IResult Unit :=
  match dp input 0 (take_while isSpaceByte)
      (fun i c => dp i c (tag (bs "#")) (fun i2 _ => .Done i2 ())) with
  | .Done _ _ => .Done [] ()
  | .Error e => .Error e
  | .Incomplete e => .Incomplete e

/-- parse_environnment_variable (parser.rs lines 235-248). -/
def parse_environnment_variable (input : List Nat) : IResult Unit :=
  match dp input 0 alphanumeric
      (fun i c => dp i c (tag (bs "=")) (fun i2 _ => .Done i2 ())) with
  | .Done _ _ => .Done [] ()
  | .Error e => .Error e
  | .Incomplete e => .Incomplete e

/-- parse_empty_line (parser.rs lines 250-257): the loop returns an
error at the whole input on the first non-space byte. -/
def parse_empty_line (input : List Nat) : IResult Unit :=
  if input.all isSpaceByte then .Done [] ()
  else .Error (.Position .Space input)

/-- The schedule-line grammar of parse_crontab (parser.rs lines 278-293),
a do_parse chain of the five fields, the user and the command line. -/
def schedule_line (input : List Nat) (options : CrontabParserOptions) :
    IResult Unit :=
  dp input 0 (parse_field minute_value_parse) (fun i1 c1 =>
  dp i1 c1 parse_field_separator (fun i2 c2 =>
  dp i2 c2 (parse_field hour_value_parse) (fun i3 c3 =>
  dp i3 c3 parse_field_separator (fun i4 c4 =>
  dp i4 c4 (parse_field day_of_month_value_parse) (fun i5 c5 =>
  dp i5 c5 parse_field_separator (fun i6 c6 =>
  dp i6 c6 (parse_field month_value_parse) (fun i7 c7 =>
  dp i7 c7 parse_field_separator (fun i8 c8 =>
  dp i8 c8 (parse_field day_of_week_value_parse) (fun i9 c9 =>
  dp i9 c9 parse_field_separator (fun i10 c10 =>
  dp i10 c10 (fun inp => parse_user inp options.allowed_usernames) (fun i11 c11 =>
  dp i11 c11 parse_field_separator (fun i12 c12 =>
  dp i12 c12 parse_command_line (fun i13 _ => .Done i13 ())))))))))))))

/-- parse_crontab (parser.rs lines 260-294): try empty line, comment,
environment-variable assignment, then the schedule grammar, returning
the first Done result. -/
def parse_crontab (input : List Nat) (options : CrontabParserOptions) :
    IResult Unit :=
  match parse_empty_line input with
  | .Done i o => .Done i o
  | _ =>
    match parse_comment input with
    | .Done i o => .Done i o
    | _ =>
      match parse_environnment_variable input with
      | .Done i o => .Done i o
      | _ => schedule_line input options

/-- Display text of a CrontabSyntaxError (parser.rs lines 22-33). -/
def errDisplay : CrontabSyntaxError → String
  | .ValueOutOfBounds value lo hi =>
    "value " ++ toString value ++ " out of bounds (accepted: " ++
      toString lo ++ " to " ++ toString hi ++ ")"
  | .InvalidEnumField => "could not parse the field"
  | .InvalidPeriodField => "could not parse the field"
  | .InvalidNumericValue => "invalid numeric value"
  | .InvalidFieldSeparator => "expected a field separator (space or tab)"
  | .InvalidUsername => "invalid username"
  | .InvalidCommandLine reason => "invalid command line: " ++ reason

/-- Debug name of a built-in ErrorKind, as used by the format!("error:
{:?}") fallback of format_error. -/
def kindDebugName : NomErrorKind → String
  | .Tag => "Tag"
  | .Digit => "Digit"
  | .AlphaNumeric => "AlphaNumeric"
  | .Space => "Space"
  | .Alt => "Alt"
  | .SeparatedNonEmptyList => "SeparatedNonEmptyList"
  | .Custom _ => "Custom"

/-- format_error (parser.rs lines 297-302). -/
def format_error (k : NomErrorKind) : List Nat :=
  match k with
  | .Custom e => bs (errDisplay e)
  | other => bs ("error: " ++ kindDebugName other)

/-- Rust String::truncate(new_len): a no-op when new_len exceeds the
byte length, otherwise it asserts that new_len is a char boundary
(panicking when it is not, modelled as none) and cuts at that byte. -/
def stringTruncate (s : List Nat) (newLen : Nat) : Option (List Nat) :=
  if s.length ≤ newLen then some s
  else
    match s.get? newLen with
    | some b => if b < 128 ∨ 192 ≤ b then some (s.take newLen) else none
    | none => some s

/-- format_position (parser.rs lines 318-322): decode the position as
UTF-8 (falling back to a fixed placeholder), then hard-truncate the
string to 15 bytes. -/
def format_position (pos : List Nat) : Option (List Nat) :=
  stringTruncate (if (utf8Decode pos).isSome then pos else bs "(invalid UTF-8)") 15

/-- Byte text " (at '" that precedes a rendered position fragment. -/
def atOpenBytes : List Nat := bs " (at " ++ [39]

/-- Byte text "')" that closes a rendered position fragment. -/
def atCloseBytes : List Nat := [39, 41]

/-- Byte text of the newline plus "Caused by: " prefix. -/
def causedByBytes : List Nat := bs "\nCaused by: "

mutual

/-- Rendering of a single nom Err inside walk_errors (parser.rs lines
307-312). -/
def walkErrOne : NomErr → Option (List Nat)
  | .Code kind => some (format_error kind)
  | .Node kind next =>
    match walk_errors next with
    | some w => some (format_error kind ++ causedByBytes ++ w)
    | none => none
  | .Position kind pos =>
    match format_position pos with
    | some p => some (format_error kind ++ atOpenBytes ++ p ++ atCloseBytes)
    | none => none
  | .NodePosition kind pos next =>
    match format_position pos, walk_errors next with
    | some p, some w =>
      some (format_error kind ++ atOpenBytes ++ p ++ atCloseBytes ++
        causedByBytes ++ w)
    | _, _ => none

/-- walk_errors (parser.rs lines 304-316): render each error and join
the renderings with a blank line. -/
def walk_errors : List NomErr → Option (List Nat)
  | [] => some []
  | [e] => walkErrOne e
  | e :: rest =>
    match walkErrOne e, walk_errors rest with
    | some s, some w => some (s ++ bs "\n\n" ++ w)
    | _, _ => none

end

/-- Decimal text of a natural number (ASCII bytes, no sign, no leading
zeros). -/
def decimalBytes (n : Nat) : List Nat :=
  if n = 0 then [48] else (Nat.digits 10 n).reverse.map (fun d => d + 48)

/-- A concrete options value used by the closed evaluations. -/
def demoOptions : CrontabParserOptions := ⟨some ["root"]⟩

/-- The first byte of the list (if any) fails the predicate. -/
def headFails (p : Nat → Bool) : List Nat → Prop
  | [] => True
  | b :: _ => p b = false

/-- Whether a parse result is a success. -/
def isDone {α : Type} : IResult α → Bool
  | .Done _ _ => true
  | _ => false

/-- ASCII string of a byte list (used for tokens known to be ASCII). -/
def asciiStr (l : List Nat) : String := String.mk (l.map Char.ofNat)

/-- A 1000-byte command line whose last byte is a percent sign. -/
def longPercentLine : List Nat := List.replicate 999 97 ++ [37]

/-- A 17-byte line: fourteen letters a followed by the three UTF-8
bytes of the euro sign, so that byte offset 15 falls inside the final
character. -/
def euroLine : List Nat := List.replicate 14 97 ++ [226, 130, 172]

end Crontabcheck

namespace Crontabcheck

/-! Helper lemmas. -/

theorem takeWhile_all (p : Nat → Bool) (l : List Nat) (h : l.all p = true) :
    l.takeWhile p = l := by
  induction l with
  | nil => rfl
  | cons b t ih =>
    simp only [List.all_cons, Bool.and_eq_true] at h
    simp [List.takeWhile_cons, h.1, ih h.2]

theorem dropWhile_all (p : Nat → Bool) (l : List Nat) (h : l.all p = true) :
    l.dropWhile p = [] := by
  induction l with
  | nil => rfl
  | cons b t ih =>
    simp only [List.all_cons, Bool.and_eq_true] at h
    simp [List.dropWhile_cons, h.1, ih h.2]

theorem takeWhile_append_headFails (p : Nat → Bool) (l r : List Nat)
    (hl : l.all p = true) (hr : headFails p r) :
    (l ++ r).takeWhile p = l ∧ (l ++ r).dropWhile p = r := by
  induction l with
  | nil =>
    cases r with
    | nil => exact ⟨rfl, rfl⟩
    | cons b t =>
      simp only [headFails] at hr
      simp [List.takeWhile_cons, List.dropWhile_cons, hr]
  | cons b t ih =>
    simp only [List.all_cons, Bool.and_eq_true] at hl
    obtain ⟨tw, dw⟩ := ih hl.2
    simp [List.takeWhile_cons, List.dropWhile_cons, hl.1, tw, dw]

theorem charClass_split (p : Nat → Bool) (kind : NomErrorKind)
    (tok rest : List Nat) (h1 : tok ≠ []) (h2 : tok.all p = true)
    (h3 : headFails p rest) :
    charClass p kind (tok ++ rest) = .Done rest tok := by
  obtain ⟨tw, dw⟩ := takeWhile_append_headFails p tok rest h2 h3
  simp [charClass, tw, dw, h1]

theorem charClass_all (p : Nat → Bool) (kind : NomErrorKind)
    (tok : List Nat) (h1 : tok ≠ []) (h2 : tok.all p = true) :
    charClass p kind tok = .Done [] tok := by
  simp [charClass, takeWhile_all p tok h2, dropWhile_all p tok h2, h1]

theorem charClass_headFail (p : Nat → Bool) (kind : NomErrorKind)
    (b : Nat) (t : List Nat) (h : p b = false) :
    charClass p kind (b :: t) = .Error (.Position kind (b :: t)) := by
  simp [charClass, List.takeWhile_cons, h]

theorem tag_cons_self (c : Nat) (r : List Nat) : tag [c] (c :: r) = .Done r [c] := by
  simp [tag, compareBytes]

theorem tag_head_ne {b c : Nat} (ts r : List Nat) (h : b ≠ c) :
    tag (c :: ts) (b :: r) = .Error (.Position .Tag (b :: r)) := by
  simp [tag, compareBytes, h]

theorem tag_nil_incomplete (c : Nat) (ts : List Nat) :
    tag (c :: ts) [] = .Incomplete (.Size (c :: ts).length) := by
  simp [tag, compareBytes]

end Crontabcheck

namespace Crontabcheck

theorem foldr_eq_ofDigits (L : List Nat) :
    L.foldr (fun d a => 10 * a + d) 0 = Nat.ofDigits 10 L := by
  induction L with
  | nil => simp [Nat.ofDigits]
  | cons d t ih => simp [Nat.ofDigits_cons, ih]; ring

theorem digitsVal_decimalBytes (n : Nat) : digitsVal (decimalBytes n) = n := by
  by_cases h : n = 0
  · subst h; rfl
  · unfold decimalBytes digitsVal
    rw [if_neg h, List.foldl_map, List.foldl_reverse]
    rw [show (fun (x y : Nat) => 10 * y + (x + 48 - 48)) =
        (fun (d a : Nat) => 10 * a + d) from by funext x y; omega]
    rw [foldr_eq_ofDigits]
    exact Nat.ofDigits_digits 10 n

theorem decimalBytes_all_digit (n : Nat) :
    (decimalBytes n).all isDigitByte = true := by
  by_cases h : n = 0
  · subst h; rfl
  · unfold decimalBytes
    rw [if_neg h]
    simp only [List.all_eq_true, List.mem_map, List.mem_reverse]
    rintro b ⟨d, hd, rfl⟩
    have hd10 : d < 10 := Nat.digits_lt_base (by norm_num) hd
    simp [isDigitByte]; omega

theorem decimalBytes_ne_nil (n : Nat) : decimalBytes n ≠ [] := by
  by_cases h : n = 0
  · subst h; simp [decimalBytes]
  · unfold decimalBytes
    rw [if_neg h]
    simp [Nat.digits_ne_nil_iff_ne_zero, h]

theorem digit_decimalBytes (n : Nat) :
    digit (decimalBytes n) = .Done [] (decimalBytes n) :=
  charClass_all _ _ _ (decimalBytes_ne_nil n) (decimalBytes_all_digit n)

theorem parse_i32_decimalBytes {n : Nat} (h : n ≤ 2147483647) :
    parse_i32_digits (decimalBytes n) = some (n : Int) := by
  unfold parse_i32_digits
  rw [if_neg (decimalBytes_ne_nil n), if_pos (decimalBytes_all_digit n),
    digitsVal_decimalBytes, if_pos h]

theorem parse_i32_decimalBytes_overflow {n : Nat} (h : 2147483647 < n) :
    parse_i32_digits (decimalBytes n) = none := by
  unfold parse_i32_digits
  rw [if_neg (decimalBytes_ne_nil n), if_pos (decimalBytes_all_digit n),
    digitsVal_decimalBytes, if_neg (by omega)]

theorem pwb_in {n : Nat} {lo hi : Int} (hmax : n ≤ 2147483647)
    (h1 : lo ≤ (n : Int)) (h2 : (n : Int) ≤ hi) :
    parse_within_bounds (decimalBytes n) lo hi = .Done [] () := by
  simp only [parse_within_bounds, digit_decimalBytes, parse_i32_decimalBytes hmax]
  rw [if_neg (by omega)]

theorem pwb_out {n : Nat} {lo hi : Int} (hmax : n ≤ 2147483647)
    (hout : (n : Int) < lo ∨ hi < (n : Int)) :
    parse_within_bounds (decimalBytes n) lo hi =
      .Error (.Position (.Custom (.ValueOutOfBounds n lo hi)) (decimalBytes n)) := by
  simp only [parse_within_bounds, digit_decimalBytes, parse_i32_decimalBytes hmax]
  rw [if_pos (by omega)]

theorem pwb_overflow {n : Nat} {lo hi : Int} (h : 2147483647 < n) :
    parse_within_bounds (decimalBytes n) lo hi =
      .Error (.Position (.Custom .InvalidNumericValue) (decimalBytes n)) := by
  simp only [parse_within_bounds, digit_decimalBytes, parse_i32_decimalBytes_overflow h]

end Crontabcheck

namespace Crontabcheck

theorem altCompleteTags_digit_head {b : Nat} (hb : isDigitByte b = true)
    (r : List Nat) :
    ∀ tags : List (List Nat), (∀ t ∈ tags, ∃ c ts, t = c :: ts ∧ 97 ≤ c) →
      altCompleteTags tags (b :: r) = .Error (.Position .Alt (b :: r)) := by
  intro tags
  induction tags with
  | nil => intro _; rfl
  | cons t rest ih =>
    intro h
    obtain ⟨c, ts, rfl, hc⟩ := h t (List.mem_cons_self t rest)
    have hb57 : b ≤ 57 := by simp [isDigitByte] at hb; omega
    have hbc : b ≠ c := by omega
    rw [altCompleteTags, tag_head_ne ts r hbc]
    exact ih (fun t ht => h t (by simp [ht]))

theorem monthTags_heads : ∀ t ∈ monthTags, ∃ c ts, t = c :: ts ∧ 97 ≤ c := by
  have he : monthTags =
      [[106, 97, 110], [102, 101, 98], [109, 97, 114], [97, 112, 114],
       [109, 97, 121], [106, 117, 110], [106, 117, 108], [97, 117, 103],
       [115, 101, 112], [111, 99, 116], [110, 111, 118], [100, 101, 99]] := by
    decide
  rw [he]
  intro t ht
  simp only [List.mem_cons, List.not_mem_nil, or_false] at ht
  rcases ht with rfl | rfl | rfl | rfl | rfl | rfl | rfl | rfl | rfl | rfl | rfl | rfl <;>
    exact ⟨_, _, rfl, by norm_num⟩

theorem dayTags_heads : ∀ t ∈ dayTags, ∃ c ts, t = c :: ts ∧ 97 ≤ c := by
  have he : dayTags =
      [[109, 111, 110], [116, 117, 101], [119, 101, 100], [116, 104, 117],
       [102, 114, 105], [115, 97, 116], [115, 117, 110]] := by
    decide
  rw [he]
  intro t ht
  simp only [List.mem_cons, List.not_mem_nil, or_false] at ht
  rcases ht with rfl | rfl | rfl | rfl | rfl | rfl | rfl <;>
    exact ⟨_, _, rfl, by norm_num⟩

theorem decimalBytes_cons (n : Nat) :
    ∃ b t, decimalBytes n = b :: t ∧ isDigitByte b = true := by
  cases hd : decimalBytes n with
  | nil => exact absurd hd (decimalBytes_ne_nil n)
  | cons b t =>
    refine ⟨b, t, rfl, ?_⟩
    have h := decimalBytes_all_digit n
    rw [hd] at h
    simp only [List.all_cons, Bool.and_eq_true] at h
    exact h.1

theorem month_value_parse_decimal (n : Nat) :
    month_value_parse (decimalBytes n) = parse_within_bounds (decimalBytes n) 1 12 := by
  obtain ⟨b, t, hd, hb⟩ := decimalBytes_cons n
  rw [month_value_parse, hd, altCompleteTags_digit_head hb t monthTags monthTags_heads]

theorem day_of_week_value_parse_decimal (n : Nat) :
    day_of_week_value_parse (decimalBytes n) = parse_within_bounds (decimalBytes n) 0 7 := by
  obtain ⟨b, t, hd, hb⟩ := decimalBytes_cons n
  rw [day_of_week_value_parse, hd, altCompleteTags_digit_head hb t dayTags dayTags_heads]

theorem utf8First_lt128 {b : Nat} (t : List Nat) (h : b < 128) :
    utf8First (b :: t) = some (b, t) := by
  simp [utf8First, h]

theorem utf8DecodeAux_ascii :
    ∀ (fuel : Nat) (l : List Nat), l.length ≤ fuel →
      l.all (fun b => b < 128) = true →
      utf8DecodeAux fuel l = some (l.map Char.ofNat) := by
  intro fuel
  induction fuel with
  | zero =>
    intro l hl _
    cases l with
    | nil => rfl
    | cons b t => simp at hl
  | succ fuel ih =>
    intro l hl hall
    cases l with
    | nil => rfl
    | cons b t =>
      simp only [List.all_cons, Bool.and_eq_true, decide_eq_true_eq] at hall
      simp only [utf8DecodeAux, utf8First_lt128 t hall.1]
      rw [ih t (by simp at hl; omega) hall.2]
      rfl

theorem utf8Decode_ascii :
    ∀ l : List Nat, l.all (fun b => b < 128) = true →
      utf8Decode l = some (l.map Char.ofNat) := by
  intro l h
  exact utf8DecodeAux_ascii l.length l le_rfl h

theorem alnum_all_lt_128 {l : List Nat} (h : l.all isAlphanumericByte = true) :
    l.all (fun b => b < 128) = true := by
  simp only [List.all_eq_true, decide_eq_true_eq] at h ⊢
  intro b hb
  have := h b hb
  simp only [isAlphanumericByte, isAlphabeticByte, isDigitByte, Bool.or_eq_true,
    Bool.and_eq_true, decide_eq_true_eq] at this
  omega

theorem from_utf8_alnum {l : List Nat} (h : l.all isAlphanumericByte = true) :
    from_utf8 l = some (asciiStr l) := by
  rw [from_utf8, utf8Decode_ascii l (alnum_all_lt_128 h)]
  rfl

theorem dp_done {α β : Type} {input : List Nat} {c : Nat}
    {p : List Nat → IResult α} {k : List Nat → Nat → IResult β}
    {r : List Nat} {v : β} (h : dp input c p k = .Done r v) :
    ∃ i o c2, p input = .Done i o ∧ k i c2 = .Done r v := by
  unfold dp at h
  split at h
  · exact absurd h (by simp)
  · exact absurd h (by simp)
  · exact absurd h (by simp)
  · next i o heq => exact ⟨i, o, _, heq, h⟩

theorem parse_command_line_done {input r : List Nat} {v : Unit}
    (h : parse_command_line input = .Done r v) : r = [] := by
  unfold parse_command_line at h
  split at h
  · exact absurd h (by simp)
  · split at h
    · exact absurd h (by simp)
    · cases h; rfl

theorem parse_empty_line_done {input r : List Nat} {v : Unit}
    (h : parse_empty_line input = .Done r v) : r = [] := by
  unfold parse_empty_line at h
  split at h
  · cases h; rfl
  · exact absurd h (by simp)

theorem parse_comment_done {input r : List Nat} {v : Unit}
    (h : parse_comment input = .Done r v) : r = [] := by
  unfold parse_comment at h
  split at h
  · cases h; rfl
  · exact absurd h (by simp)
  · exact absurd h (by simp)

theorem parse_environnment_variable_done {input r : List Nat} {v : Unit}
    (h : parse_environnment_variable input = .Done r v) : r = [] := by
  unfold parse_environnment_variable at h
  split at h
  · cases h; rfl
  · exact absurd h (by simp)
  · exact absurd h (by simp)

theorem schedule_line_done {input : List Nat} {options : CrontabParserOptions}
    {r : List Nat} {v : Unit}
    (h : schedule_line input options = .Done r v) : r = [] := by
  unfold schedule_line at h
  obtain ⟨i1, o1, c1', h1, h⟩ := dp_done h
  obtain ⟨i2, o2, c2', h2, h⟩ := dp_done h
  obtain ⟨i3, o3, c3', h3, h⟩ := dp_done h
  obtain ⟨i4, o4, c4', h4, h⟩ := dp_done h
  obtain ⟨i5, o5, c5', h5, h⟩ := dp_done h
  obtain ⟨i6, o6, c6', h6, h⟩ := dp_done h
  obtain ⟨i7, o7, c7', h7, h⟩ := dp_done h
  obtain ⟨i8, o8, c8', h8, h⟩ := dp_done h
  obtain ⟨i9, o9, c9', h9, h⟩ := dp_done h
  obtain ⟨i10, o10, c10', h10, h⟩ := dp_done h
  obtain ⟨i11, o11, c11', h11, h⟩ := dp_done h
  obtain ⟨i12, o12, c12', h12, h⟩ := dp_done h
  obtain ⟨i13, o13, c13', h13, h⟩ := dp_done h
  cases h
  exact parse_command_line_done h13

end Crontabcheck

namespace Crontabcheck

/-! Claim theorems. -/

/-- C1 (amended): the Command Line Parser rejects inputs longer than
999 bytes with the length reason; when the length is at most 999, any
input containing a percent byte is rejected with the character reason;
an input of exactly 999 bytes with no percent succeeds with the entire
remainder consumed.  (The claim's percent rejection is not independent
of length: the length check runs first.) -/
theorem C1_command_line_checks (input : List Nat) :
    (999 < input.length →
      parse_command_line input = .Error (.Position
        (.Custom (.InvalidCommandLine "command line can not exceed 999 characters"))
        input)) ∧
    (input.length ≤ 999 → 37 ∈ input →
      parse_command_line input = .Error (.Position
        (.Custom (.InvalidCommandLine "special char % should not be used"))
        input)) ∧
    (input.length = 999 → 37 ∉ input →
      parse_command_line input = .Done [] ()) := by
  refine ⟨fun h => ?_, fun h1 h2 => ?_, fun h1 h2 => ?_⟩
  · rw [parse_command_line, if_pos (by omega)]
  · have hany : input.any (fun c => c == 37) = true := by
      simp only [List.any_eq_true, beq_iff_eq]
      exact ⟨37, h2, rfl⟩
    rw [parse_command_line, if_neg (by omega), if_pos hany]
  · have hany : ¬ (input.any (fun c => c == 37) = true) := by
      simp only [List.any_eq_true, beq_iff_eq]
      rintro ⟨x, hx, rfl⟩
      exact h2 hx
    rw [parse_command_line, if_neg (by omega), if_neg hany]

/-- C1 witness: a one-byte percent command line is rejected with the
character reason. -/
theorem C1_command_line_checks_witness :
    parse_command_line [37] = .Error (.Position
      (.Custom (.InvalidCommandLine "special char % should not be used"))
      [37]) :=
  (C1_command_line_checks [37]).2.1 (by decide) (by decide)

/-- C1 counterexample: a 1000-byte command line containing a percent
byte fails with the length reason, not the character reason, so the
percent rejection is not independent of length. -/
theorem C1_counterexample :
    longPercentLine.length = 1000 ∧
    (37 ∈ longPercentLine) ∧
    parse_command_line longPercentLine = .Error (.Position
      (.Custom (.InvalidCommandLine "command line can not exceed 999 characters"))
      longPercentLine) ∧
    "command line can not exceed 999 characters" ≠
      "special char % should not be used" := by
  have hlen : longPercentLine.length = 1000 := by
    unfold longPercentLine
    rw [List.length_append, List.length_replicate]
    rfl
  have hmem : 37 ∈ longPercentLine := by
    unfold longPercentLine
    simp only [List.mem_append, List.mem_singleton, or_true]
  refine ⟨hlen, hmem, ?_, by decide⟩
  rw [parse_command_line, if_pos (by omega)]

/-- C2 (amended): a failure of the first enumeration element aborts
the whole enumeration with InvalidEnumField wrapping the element-level
cause; ",1" and "" are rejected this way and "1-2", "1,2", "1-2,4,6-8"
are accepted in full; but a failure of a later element (after a
separator) merely ends the list, so "1," is accepted with the trailing
comma left unconsumed rather than rejected; for the same reason "1,2"
succeeds consuming only "1" (a bare value at the end of input leaves
the range probe incomplete, which also ends the list). -/
theorem C2_parse_enum :
    (∀ (value_parse : List Nat → IResult Unit) (input : List Nat) (e : NomErr),
      parse_range_or_value value_parse input = .Error e →
      parse_enum value_parse input =
        .Error (.NodePosition (.Custom .InvalidEnumField) input [e])) ∧
    parse_enum minute_value_parse (bs "1-2") = .Done [] () ∧
    parse_enum minute_value_parse (bs "1,2") = .Done (bs ",2") () ∧
    parse_enum minute_value_parse (bs "1-2,4,6-8") = .Done [] () ∧
    parse_enum minute_value_parse (bs ",1") =
      .Error (.NodePosition (.Custom .InvalidEnumField) (bs ",1")
        [.Position (.Custom .InvalidNumericValue) (bs ",1")]) ∧
    parse_enum minute_value_parse (bs "") =
      .Error (.NodePosition (.Custom .InvalidEnumField) []
        [.Position (.Custom .InvalidNumericValue) []]) ∧
    parse_enum minute_value_parse (bs "1,") = .Done (bs ",") () := by
  refine ⟨?_, by rfl, by rfl, by rfl, by rfl, by rfl, by rfl⟩
  intro vp input e h
  simp only [parse_enum, add_return_error, dp, separated_nonempty_list, h]

/-- C2 witness: the first-element failure wrapping applied to ",1". -/
theorem C2_parse_enum_witness :
    parse_enum minute_value_parse (bs ",1") =
      .Error (.NodePosition (.Custom .InvalidEnumField) (bs ",1")
        [.Position (.Custom .InvalidNumericValue) (bs ",1")]) :=
  C2_parse_enum.1 minute_value_parse (bs ",1")
    (.Position (.Custom .InvalidNumericValue) (bs ",1")) (by rfl)

/-- C2 counterexample: "1," is accepted by the Enumeration Parser (with
the comma left over), not rejected as the claim states. -/
theorem C2_counterexample :
    parse_enum minute_value_parse (bs "1,") = .Done (bs ",") () := by rfl

/-- C3 (amended): parse_crontab can return the Incomplete outcome even
for a complete line; the complete lines "5" and "* *" both do. -/
theorem C3_incomplete_reachable :
    parse_crontab (bs "5") demoOptions = .Incomplete (.Size 1) ∧
    parse_crontab (bs "* *") demoOptions = .Incomplete (.Size 4) :=
  ⟨rfl, rfl⟩

/-- C3 counterexample: the complete line "5" makes parse_crontab return
Incomplete, contradicting the claim that Incomplete never arises. -/
theorem C3_counterexample :
    parse_crontab (bs "5") demoOptions = .Incomplete (.Size 1) := by rfl

end Crontabcheck

namespace Crontabcheck

theorem parse_period_step (value_parse : List Nat → IResult Unit) (ds : List Nat)
    (h : value_parse ds = .Done [] ()) :
    parse_period value_parse (42 :: 47 :: ds) = .Done [] () := by
  simp only [parse_period, show bs "*" = [42] from rfl, show bs "/" = [47] from rfl,
    tag_cons_self, add_return_error, h]

/-- C4: the Period Parser accepts a bare star immediately, consuming
nothing after the star when no slash follows; it accepts star slash N
for every N within the field's bounds, for all five field kinds; and it
rejects a missing step and a malformed step with InvalidPeriodField
wrapping the inner cause. -/
theorem C4_parse_period :
    (∀ (value_parse : List Nat → IResult Unit) (rest : List Nat),
      headFails (fun b => b == 47) rest →
      parse_period value_parse (42 :: rest) = .Done rest ()) ∧
    (∀ n : Nat, n ≤ 59 →
      parse_period minute_value_parse (bs "*/" ++ decimalBytes n) = .Done [] ()) ∧
    (∀ n : Nat, n ≤ 24 →
      parse_period hour_value_parse (bs "*/" ++ decimalBytes n) = .Done [] ()) ∧
    (∀ n : Nat, n ≤ 31 →
      parse_period day_of_month_value_parse (bs "*/" ++ decimalBytes n) = .Done [] ()) ∧
    (∀ n : Nat, 1 ≤ n → n ≤ 12 →
      parse_period month_value_parse (bs "*/" ++ decimalBytes n) = .Done [] ()) ∧
    (∀ n : Nat, n ≤ 7 →
      parse_period day_of_week_value_parse (bs "*/" ++ decimalBytes n) = .Done [] ()) ∧
    parse_period minute_value_parse (bs "*/") =
      .Error (.NodePosition (.Custom .InvalidPeriodField) []
        [.Position (.Custom .InvalidNumericValue) []]) ∧
    parse_period minute_value_parse (bs "*/abc") =
      .Error (.NodePosition (.Custom .InvalidPeriodField) (bs "abc")
        [.Position (.Custom .InvalidNumericValue) (bs "abc")]) := by
  refine ⟨?_, ?_, ?_, ?_, ?_, ?_, by rfl, by rfl⟩
  · intro vp rest hr
    cases rest with
    | nil =>
      simp only [parse_period, show bs "*" = [42] from rfl,
        show bs "/" = [47] from rfl, tag_cons_self, tag_nil_incomplete]
    | cons b t =>
      simp only [headFails] at hr
      have hb : b ≠ 47 := by simpa using hr
      simp only [parse_period, show bs "*" = [42] from rfl,
        show bs "/" = [47] from rfl, tag_cons_self, tag_head_ne ([] : List Nat) t hb]
  · intro n hn
    refine parse_period_step _ _ ?_
    simp only [minute_value_parse]
    exact pwb_in (by omega) (by omega) (by omega)
  · intro n hn
    refine parse_period_step _ _ ?_
    simp only [hour_value_parse]
    exact pwb_in (by omega) (by omega) (by omega)
  · intro n hn
    refine parse_period_step _ _ ?_
    simp only [day_of_month_value_parse]
    exact pwb_in (by omega) (by omega) (by omega)
  · intro n hn1 hn2
    refine parse_period_step _ _ ?_
    show month_value_parse (decimalBytes n) = .Done [] ()
    rw [month_value_parse_decimal]
    exact pwb_in (by omega) (by omega) (by omega)
  · intro n hn
    refine parse_period_step _ _ ?_
    show day_of_week_value_parse (decimalBytes n) = .Done [] ()
    rw [day_of_week_value_parse_decimal]
    exact pwb_in (by omega) (by omega) (by omega)

/-- C4 witness: the bare star and a concrete step within bounds. -/
theorem C4_parse_period_witness :
    parse_period minute_value_parse (bs "*") = .Done [] () ∧
    parse_period minute_value_parse (bs "*/" ++ decimalBytes 2) = .Done [] () :=
  ⟨C4_parse_period.1 minute_value_parse [] trivial,
   C4_parse_period.2.1 2 (by decide)⟩

end Crontabcheck

namespace Crontabcheck

/-- C5: a successful parse_crontab always consumes the entire line:
each of the four line shapes ends in a parser whose success carries an
empty remainder. -/
theorem C5_success_consumes_all (input : List Nat)
    (options : CrontabParserOptions) (r : List Nat) (v : Unit)
    (h : parse_crontab input options = .Done r v) : r = [] := by
  unfold parse_crontab at h
  cases he1 : parse_empty_line input with
  | Done i o =>
    simp only [he1] at h
    cases h
    exact parse_empty_line_done he1
  | Error e1 =>
    simp only [he1] at h
    cases he2 : parse_comment input with
    | Done i o =>
      simp only [he2] at h
      cases h
      exact parse_comment_done he2
    | Error e2 =>
      simp only [he2] at h
      cases he3 : parse_environnment_variable input with
      | Done i o =>
        simp only [he3] at h
        cases h
        exact parse_environnment_variable_done he3
      | Error e3 =>
        simp only [he3] at h
        exact schedule_line_done h
      | Incomplete n3 =>
        simp only [he3] at h
        exact schedule_line_done h
    | Incomplete n2 =>
      simp only [he2] at h
      cases he3 : parse_environnment_variable input with
      | Done i o =>
        simp only [he3] at h
        cases h
        exact parse_environnment_variable_done he3
      | Error e3 =>
        simp only [he3] at h
        exact schedule_line_done h
      | Incomplete n3 =>
        simp only [he3] at h
        exact schedule_line_done h
  | Incomplete n1 =>
    simp only [he1] at h
    cases he2 : parse_comment input with
    | Done i o =>
      simp only [he2] at h
      cases h
      exact parse_comment_done he2
    | Error e2 =>
      simp only [he2] at h
      cases he3 : parse_environnment_variable input with
      | Done i o =>
        simp only [he3] at h
        cases h
        exact parse_environnment_variable_done he3
      | Error e3 =>
        simp only [he3] at h
        exact schedule_line_done h
      | Incomplete n3 =>
        simp only [he3] at h
        exact schedule_line_done h
    | Incomplete n2 =>
      simp only [he2] at h
      cases he3 : parse_environnment_variable input with
      | Done i o =>
        simp only [he3] at h
        cases h
        exact parse_environnment_variable_done he3
      | Error e3 =>
        simp only [he3] at h
        exact schedule_line_done h
      | Incomplete n3 =>
        simp only [he3] at h
        exact schedule_line_done h

/-- C5 witness: the success on an all-blank line has empty remainder. -/
theorem C5_success_consumes_all_witness : ([] : List Nat) = [] :=
  C5_success_consumes_all (bs " ") demoOptions [] () (by rfl)

end Crontabcheck

namespace Crontabcheck

theorem isDone_false {α : Type} {x : IResult α} (h : isDone x = false) :
    (∃ e, x = .Error e) ∨ (∃ n, x = .Incomplete n) := by
  cases x with
  | Done i o => simp [isDone] at h
  | Error e => exact Or.inl ⟨e, rfl⟩
  | Incomplete n => exact Or.inr ⟨n, rfl⟩

theorem alnum_not_space {b : Nat} (h : isAlphanumericByte b = true) :
    isSpaceByte b = false := by
  simp only [isAlphanumericByte, isAlphabeticByte, isDigitByte, Bool.or_eq_true,
    Bool.and_eq_true, decide_eq_true_eq] at h
  simp only [isSpaceByte, Bool.or_eq_false_iff, beq_eq_false_iff_ne]
  omega

theorem alnum_ne_35 {b : Nat} (h : isAlphanumericByte b = true) : b ≠ 35 := by
  simp only [isAlphanumericByte, isAlphabeticByte, isDigitByte, Bool.or_eq_true,
    Bool.and_eq_true, decide_eq_true_eq] at h
  omega

/-- C6: the Line Classifier tries blank line, comment, assignment and
then the schedule grammar in that order, returning the first success;
the only failure parse_crontab ever returns is the schedule-line
failure (attempts of the first three shapes surface no diagnostic); and
every line made of a nonempty alphanumeric token immediately followed
by an equals byte is accepted as an assignment, so the schedule grammar
is never consulted for it. -/
theorem C6_classifier :
    (∀ (input : List Nat) (options : CrontabParserOptions) (i : List Nat) (o : Unit),
      parse_empty_line input = .Done i o →
      parse_crontab input options = .Done i o) ∧
    (∀ (input : List Nat) (options : CrontabParserOptions) (i : List Nat) (o : Unit),
      isDone (parse_empty_line input) = false →
      parse_comment input = .Done i o →
      parse_crontab input options = .Done i o) ∧
    (∀ (input : List Nat) (options : CrontabParserOptions) (i : List Nat) (o : Unit),
      isDone (parse_empty_line input) = false →
      isDone (parse_comment input) = false →
      parse_environnment_variable input = .Done i o →
      parse_crontab input options = .Done i o) ∧
    (∀ (input : List Nat) (options : CrontabParserOptions),
      isDone (parse_empty_line input) = false →
      isDone (parse_comment input) = false →
      isDone (parse_environnment_variable input) = false →
      parse_crontab input options = schedule_line input options) ∧
    (∀ (input : List Nat) (options : CrontabParserOptions) (e : NomErr),
      parse_crontab input options = .Error e →
      schedule_line input options = .Error e) ∧
    (∀ (tok rest : List Nat) (options : CrontabParserOptions), tok ≠ [] →
      tok.all isAlphanumericByte = true →
      parse_environnment_variable (tok ++ 61 :: rest) = .Done [] () ∧
      parse_crontab (tok ++ 61 :: rest) options = .Done [] ()) := by
  refine ⟨?_, ?_, ?_, ?_, ?_, ?_⟩
  · intro input options i o h
    simp only [parse_crontab, h]
  · intro input options i o h1 h2
    rcases isDone_false h1 with ⟨e1, he1⟩ | ⟨n1, he1⟩ <;>
      simp only [parse_crontab, he1, h2]
  · intro input options i o h1 h2 h3
    rcases isDone_false h1 with ⟨e1, he1⟩ | ⟨n1, he1⟩ <;>
      rcases isDone_false h2 with ⟨e2, he2⟩ | ⟨n2, he2⟩ <;>
      simp only [parse_crontab, he1, he2, h3]
  · intro input options h1 h2 h3
    rcases isDone_false h1 with ⟨e1, he1⟩ | ⟨n1, he1⟩ <;>
      rcases isDone_false h2 with ⟨e2, he2⟩ | ⟨n2, he2⟩ <;>
      rcases isDone_false h3 with ⟨e3, he3⟩ | ⟨n3, he3⟩ <;>
      simp only [parse_crontab, he1, he2, he3]
  · intro input options e h
    unfold parse_crontab at h
    cases he1 : parse_empty_line input with
    | Done i o => simp only [he1] at h; exact IResult.noConfusion h
    | Error e1 =>
      simp only [he1] at h
      cases he2 : parse_comment input with
      | Done i o => simp only [he2] at h; exact IResult.noConfusion h
      | Error e2 =>
        simp only [he2] at h
        cases he3 : parse_environnment_variable input with
        | Done i o => simp only [he3] at h; exact IResult.noConfusion h
        | Error e3 => simp only [he3] at h; exact h
        | Incomplete n3 => simp only [he3] at h; exact h
      | Incomplete n2 =>
        simp only [he2] at h
        cases he3 : parse_environnment_variable input with
        | Done i o => simp only [he3] at h; exact IResult.noConfusion h
        | Error e3 => simp only [he3] at h; exact h
        | Incomplete n3 => simp only [he3] at h; exact h
    | Incomplete n1 =>
      simp only [he1] at h
      cases he2 : parse_comment input with
      | Done i o => simp only [he2] at h; exact IResult.noConfusion h
      | Error e2 =>
        simp only [he2] at h
        cases he3 : parse_environnment_variable input with
        | Done i o => simp only [he3] at h; exact IResult.noConfusion h
        | Error e3 => simp only [he3] at h; exact h
        | Incomplete n3 => simp only [he3] at h; exact h
      | Incomplete n2 =>
        simp only [he2] at h
        cases he3 : parse_environnment_variable input with
        | Done i o => simp only [he3] at h; exact IResult.noConfusion h
        | Error e3 => simp only [he3] at h; exact h
        | Incomplete n3 => simp only [he3] at h; exact h
  · intro tok rest options htok hall
    obtain ⟨b, t, rfl⟩ : ∃ b t, tok = b :: t := by
      cases tok with
      | nil => exact absurd rfl htok
      | cons b t => exact ⟨b, t, rfl⟩
    have hb : isAlphanumericByte b = true := by
      simp only [List.all_cons, Bool.and_eq_true] at hall
      exact hall.1
    have hbs : isSpaceByte b = false := alnum_not_space hb
    have hb35 : b ≠ 35 := alnum_ne_35 hb
    simp only [List.cons_append]
    have he : parse_empty_line (b :: (t ++ 61 :: rest)) =
        .Error (.Position .Space (b :: (t ++ 61 :: rest))) := by
      unfold parse_empty_line
      rw [if_neg (by simp [List.all_cons, hbs])]
    have hcm : parse_comment (b :: (t ++ 61 :: rest)) =
        .Error (.Position .Tag (b :: (t ++ 61 :: rest))) := by
      simp only [parse_comment, dp, take_while, List.takeWhile_cons, hbs,
        List.dropWhile_cons, Bool.false_eq_true, if_false,
        show bs "#" = [35] from rfl,
        tag_head_ne ([] : List Nat) (t ++ 61 :: rest) hb35]
    have halnum : alphanumeric (b :: (t ++ 61 :: rest)) = .Done (61 :: rest) (b :: t) := by
      have h61 : headFails isAlphanumericByte (61 :: rest) := by
        simp only [headFails]
        decide
      have := charClass_split isAlphanumericByte .AlphaNumeric (b :: t) (61 :: rest)
        htok hall h61
      rw [List.cons_append] at this
      exact this
    have henv : parse_environnment_variable (b :: (t ++ 61 :: rest)) = .Done [] () := by
      simp only [parse_environnment_variable, dp, halnum,
        show bs "=" = [61] from rfl, tag_cons_self]
    exact ⟨henv, by simp only [parse_crontab, he, hcm, henv]⟩

/-- C6 witness: the line made of the token A, an equals byte and a 1 is
classified as an assignment and accepted. -/
theorem C6_classifier_witness :
    parse_crontab ([65] ++ 61 :: [49]) demoOptions = .Done [] () :=
  (C6_classifier.2.2.2.2.2 [65] [49] demoOptions (by decide) (by decide)).2

end Crontabcheck

namespace Crontabcheck

/-- C7 (amended): for a nonnegative integer n that fits in an i32, the
decimal text of n alone is accepted by each field value parser when n
lies within that field's inclusive bounds (Minute 0-59, Hour 0-24,
DayOfMonth 0-31, Month 1-12, DayOfWeek 0-7), and rejected with
ValueOutOfBounds carrying n and those bounds when outside them; a
number beyond the i32 maximum instead yields InvalidNumericValue (as
does negative text, whose leading minus sign is not a digit). -/
theorem C7_value_bounds :
    (∀ n : Nat, n ≤ 59 → minute_value_parse (decimalBytes n) = .Done [] ()) ∧
    (∀ n : Nat, n ≤ 2147483647 → 59 < n →
      minute_value_parse (decimalBytes n) =
        .Error (.Position (.Custom (.ValueOutOfBounds n 0 59)) (decimalBytes n))) ∧
    (∀ n : Nat, n ≤ 24 → hour_value_parse (decimalBytes n) = .Done [] ()) ∧
    (∀ n : Nat, n ≤ 2147483647 → 24 < n →
      hour_value_parse (decimalBytes n) =
        .Error (.Position (.Custom (.ValueOutOfBounds n 0 24)) (decimalBytes n))) ∧
    (∀ n : Nat, n ≤ 31 → day_of_month_value_parse (decimalBytes n) = .Done [] ()) ∧
    (∀ n : Nat, n ≤ 2147483647 → 31 < n →
      day_of_month_value_parse (decimalBytes n) =
        .Error (.Position (.Custom (.ValueOutOfBounds n 0 31)) (decimalBytes n))) ∧
    (∀ n : Nat, 1 ≤ n → n ≤ 12 → month_value_parse (decimalBytes n) = .Done [] ()) ∧
    (∀ n : Nat, n ≤ 2147483647 → n = 0 ∨ 12 < n →
      month_value_parse (decimalBytes n) =
        .Error (.Position (.Custom (.ValueOutOfBounds n 1 12)) (decimalBytes n))) ∧
    (∀ n : Nat, n ≤ 7 → day_of_week_value_parse (decimalBytes n) = .Done [] ()) ∧
    (∀ n : Nat, n ≤ 2147483647 → 7 < n →
      day_of_week_value_parse (decimalBytes n) =
        .Error (.Position (.Custom (.ValueOutOfBounds n 0 7)) (decimalBytes n))) ∧
    (∀ n : Nat, 2147483647 < n →
      minute_value_parse (decimalBytes n) =
        .Error (.Position (.Custom .InvalidNumericValue) (decimalBytes n))) := by
  refine ⟨?_, ?_, ?_, ?_, ?_, ?_, ?_, ?_, ?_, ?_, ?_⟩
  · intro n hn
    simp only [minute_value_parse]
    exact pwb_in (by omega) (by omega) (by omega)
  · intro n hmax hn
    simp only [minute_value_parse]
    exact pwb_out (by omega) (by omega)
  · intro n hn
    simp only [hour_value_parse]
    exact pwb_in (by omega) (by omega) (by omega)
  · intro n hmax hn
    simp only [hour_value_parse]
    exact pwb_out (by omega) (by omega)
  · intro n hn
    simp only [day_of_month_value_parse]
    exact pwb_in (by omega) (by omega) (by omega)
  · intro n hmax hn
    simp only [day_of_month_value_parse]
    exact pwb_out (by omega) (by omega)
  · intro n hn1 hn2
    rw [month_value_parse_decimal]
    exact pwb_in (by omega) (by omega) (by omega)
  · intro n hmax hn
    rw [month_value_parse_decimal]
    exact pwb_out (by omega) (by omega)
  · intro n hn
    rw [day_of_week_value_parse_decimal]
    exact pwb_in (by omega) (by omega) (by omega)
  · intro n hmax hn
    rw [day_of_week_value_parse_decimal]
    exact pwb_out (by omega) (by omega)
  · intro n hn
    simp only [minute_value_parse]
    exact pwb_overflow hn

/-- C7 witness: the minute value 60 is rejected out of bounds with the
matching value and bounds. -/
theorem C7_value_bounds_witness :
    minute_value_parse (decimalBytes 60) =
      .Error (.Position (.Custom (.ValueOutOfBounds 60 0 59)) (decimalBytes 60)) :=
  C7_value_bounds.2.1 60 (by decide) (by decide)

/-- C7 counterexample: the decimal text of the out-of-bounds integer -1
is rejected with InvalidNumericValue (its minus sign is not a digit),
not with ValueOutOfBounds carrying -1 as the claim states. -/
theorem C7_counterexample :
    minute_value_parse (bs "-1") =
      .Error (.Position (.Custom .InvalidNumericValue) (bs "-1")) ∧
    CrontabSyntaxError.InvalidNumericValue ≠
      CrontabSyntaxError.ValueOutOfBounds (-1) 0 59 :=
  ⟨by rfl, by decide⟩

/-- C8: the User Parser accepts any leading alphanumeric token when no
allow-list is supplied; with an allow-list present (possibly empty) it
succeeds exactly when the token equals one of the entries (string
equality, hence case-sensitive, and the empty list accepts no
username); a non-alphanumeric start and a membership failure yield the
same InvalidUsername diagnostic positioned at the whole input. -/
theorem C8_parse_user :
    (∀ tok rest : List Nat, tok ≠ [] → tok.all isAlphanumericByte = true →
      headFails isAlphanumericByte rest →
      parse_user (tok ++ rest) none = .Done rest ()) ∧
    (∀ (tok rest : List Nat) (l : List String), tok ≠ [] →
      tok.all isAlphanumericByte = true → headFails isAlphanumericByte rest →
      asciiStr tok ∈ l →
      parse_user (tok ++ rest) (some l) = .Done rest ()) ∧
    (∀ (tok rest : List Nat) (l : List String), tok ≠ [] →
      tok.all isAlphanumericByte = true → headFails isAlphanumericByte rest →
      asciiStr tok ∉ l →
      parse_user (tok ++ rest) (some l) =
        .Error (.Position (.Custom .InvalidUsername) (tok ++ rest))) ∧
    (∀ (input : List Nat) (o : Option (List String)), input ≠ [] →
      headFails isAlphanumericByte input →
      parse_user input o = .Error (.Position (.Custom .InvalidUsername) input)) := by
  have halnum : ∀ tok rest : List Nat, tok ≠ [] →
      tok.all isAlphanumericByte = true → headFails isAlphanumericByte rest →
      alphanumeric (tok ++ rest) = .Done rest tok := by
    intro tok rest h1 h2 h3
    exact charClass_split isAlphanumericByte .AlphaNumeric tok rest h1 h2 h3
  refine ⟨?_, ?_, ?_, ?_⟩
  · intro tok rest h1 h2 h3
    simp only [parse_user, halnum tok rest h1 h2 h3, from_utf8_alnum h2,
      is_valid_username, if_true]
  · intro tok rest l h1 h2 h3 hmem
    have hv : is_valid_username (asciiStr tok) (some l) = true := by
      simp only [is_valid_username, List.any_eq_true]
      exact ⟨asciiStr tok, hmem, by simp⟩
    simp only [parse_user, halnum tok rest h1 h2 h3, from_utf8_alnum h2, hv,
      if_true]
  · intro tok rest l h1 h2 h3 hmem
    have hv : is_valid_username (asciiStr tok) (some l) = false := by
      simp only [is_valid_username, List.any_eq_false]
      intro el hel heq
      exact hmem (eq_of_beq heq ▸ hel)
    simp only [parse_user, halnum tok rest h1 h2 h3, from_utf8_alnum h2, hv,
      Bool.false_eq_true, if_false]
  · intro input o h1 h2
    obtain ⟨b, t, rfl⟩ : ∃ b t, input = b :: t := by
      cases input with
      | nil => exact absurd rfl h1
      | cons b t => exact ⟨b, t, rfl⟩
    simp only [headFails] at h2
    simp only [parse_user, alphanumeric,
      charClass_headFail isAlphanumericByte .AlphaNumeric b t h2]

/-- C8 witness: a present-and-empty allow-list rejects the alphanumeric
token root with InvalidUsername. -/
theorem C8_parse_user_witness :
    parse_user (bs "root" ++ []) (some ([] : List String)) =
      .Error (.Position (.Custom .InvalidUsername) (bs "root" ++ [])) :=
  C8_parse_user.2.2.1 (bs "root") [] [] (by decide) (by decide) trivial
    (by simp)

end Crontabcheck

namespace Crontabcheck

/-- C9: walk_errors renders a nested cause recursively, prefixed with
Caused by, after the position fragment shown in parentheses following
at; a rendered position fragment is always at most 15 bytes long (hence
at most 15 characters) and, when the position is valid UTF-8 and longer
than 15 bytes, the fragment is exactly its first 15 bytes — a hard cut
with no ellipsis appended; and rendering is a pure function of the
tree, so rendering the same tree twice yields identical text. -/
theorem C9_render_diagnostics :
    (∀ (kind : NomErrorKind) (pos : List Nat) (next : List NomErr),
      walk_errors [NomErr.NodePosition kind pos next] =
        (format_position pos).bind (fun p =>
          (walk_errors next).map (fun w =>
            format_error kind ++ atOpenBytes ++ p ++ atCloseBytes ++
              causedByBytes ++ w))) ∧
    (∀ (pos out : List Nat), format_position pos = some out →
      out.length ≤ 15 ∧
      ((utf8Decode pos).isSome = true → 15 < pos.length → out = pos.take 15)) ∧
    (∀ errs : List NomErr, walk_errors errs = walk_errors errs) := by
  refine ⟨?_, ?_, fun _ => rfl⟩
  · intro kind pos next
    cases hp : format_position pos with
    | none =>
      simp only [walk_errors, walkErrOne, hp]
      rfl
    | some p =>
      cases hw : walk_errors next with
      | none =>
        simp only [walk_errors, walkErrOne, hp, hw]
        rfl
      | some w =>
        simp only [walk_errors, walkErrOne, hp, hw]
        rfl
  · intro pos out h
    unfold format_position stringTruncate at h
    by_cases hv : (utf8Decode pos).isSome = true
    · rw [if_pos hv] at h
      by_cases hl : pos.length ≤ 15
      · rw [if_pos hl] at h
        simp only [Option.some.injEq] at h
        subst h
        exact ⟨hl, fun _ h15 => absurd h15 (by omega)⟩
      · rw [if_neg hl] at h
        have h15 : 15 < pos.length := by omega
        obtain ⟨b, hb⟩ : ∃ b, pos.get? 15 = some b :=
          ⟨pos.get ⟨15, h15⟩, List.get?_eq_get h15⟩
        simp only [hb] at h
        by_cases hbb : b < 128 ∨ 192 ≤ b
        · rw [if_pos hbb] at h
          simp only [Option.some.injEq] at h
          subst h
          refine ⟨?_, fun _ _ => rfl⟩
          simp [List.length_take]
        · rw [if_neg hbb] at h
          exact absurd h (by simp)
    · rw [if_neg hv] at h
      rw [if_pos (by decide : (bs "(invalid UTF-8)").length ≤ 15)] at h
      simp only [Option.some.injEq] at h
      subst h
      exact ⟨by decide, fun hv2 _ => absurd hv2 hv⟩

/-- C9 witness: a sixteen-byte all-ASCII position renders as its first
fifteen bytes. -/
theorem C9_render_diagnostics_witness :
    (List.replicate 15 97).length ≤ 15 ∧
    ((utf8Decode (List.replicate 16 97)).isSome = true →
      15 < (List.replicate 16 97).length →
      List.replicate 15 97 = (List.replicate 16 97).take 15) :=
  C9_render_diagnostics.2.1 (List.replicate 16 97) (List.replicate 15 97)
    (by rfl)

/-- C10: rendering is not total.  On the complete, valid-UTF-8 line of
fourteen a characters followed by one euro sign, parse_crontab fails
with a position covering the whole 17-byte line, and walk_errors on
that diagnostic hits the String::truncate panic, because byte offset
15 falls inside the euro character (the panic is modelled by none). -/
theorem C10_render_panics :
    (utf8Decode euroLine).isSome = true ∧
    parse_crontab euroLine demoOptions =
      .Error (.NodePosition (.Custom .InvalidEnumField) euroLine
        [.Position (.Custom .InvalidNumericValue) euroLine]) ∧
    walk_errors [.NodePosition (.Custom .InvalidEnumField) euroLine
      [.Position (.Custom .InvalidNumericValue) euroLine]] = none :=
  ⟨rfl, rfl, rfl⟩

end Crontabcheck
